import Mathlib

/-!
Verification development for the chat front-end in app.py: the markdown-table
extraction and response-formatting pipeline (parse_markdown_table,
format_response_content) and the response-text extraction in
get_agent_response.  Python strings are modelled as lists of characters;
the two table-detection regular expressions and the agent-name tag pattern
are modelled by a small backtracking matcher whose candidate order mirrors
the Python regex engine (alternation tries the left branch first, greedy
repetition tries longer matches first, lazy repetition shorter first, and
finditer takes the first candidate at the leftmost matching position).
Whitespace classes and digit / word-character tests are modelled over the
ASCII range; exotic Unicode whitespace is out of scope.
-/

abbrev PyStr := List Char

def pyStr (s : String) : PyStr := s.data

/-- Python whitespace class (ASCII model of str.strip and the regex class \s). -/
def isPySpace (c : Char) : Bool :=
  c = ' ' || c = '\t' || c = '\n' || c = '\r' || c = '\x0b' || c = '\x0c'

/-- Python str.strip(): drop leading and trailing whitespace. -/
def pyStrip (s : PyStr) : PyStr :=
  ((s.dropWhile isPySpace).reverse.dropWhile isPySpace).reverse

/-- Python str.split(sep) for a single-character separator: keeps empty parts. -/
def splitChar (sep : Char) : PyStr → List PyStr
  | [] => [[]]
  | c :: r =>
    let ps := splitChar sep r
    if c = sep then [] :: ps
    else
      match ps with
      | p :: rest => (c :: p) :: rest
      | [] => [[c]]

/-- Join a list of strings with a single newline (str.join with "\n"). -/
def joinNl (parts : List PyStr) : PyStr :=
  match parts with
  | [] => []
  | [p] => p
  | p :: rest => p ++ '\n' :: joinNl rest

/-- Python str.isdigit() on the ASCII model: nonempty and all digits. -/
def pyIsDigit (s : PyStr) : Bool := !s.isEmpty && s.all Char.isDigit

def pyLower (s : PyStr) : PyStr := s.map Char.toLower

/-- Python str.title() on the ASCII model: a letter is uppercased after a
non-letter and lowercased after a letter. -/
def pyTitleAux : Bool → PyStr → PyStr
  | _, [] => []
  | prevAlpha, c :: r =>
    if c.isAlpha then
      (if prevAlpha then c.toLower else c.toUpper) :: pyTitleAux true r
    else c :: pyTitleAux false r

def pyTitle (s : PyStr) : PyStr := pyTitleAux false s

/-- Substring test: does needle occur contiguously inside hay
(the Python operator "in" on strings)? -/
def containsSub (needle hay : PyStr) : Bool :=
  hay.tails.any fun t => needle.isPrefixOf t

/-- Slice s[a:b] of a string by absolute offsets. -/
def pySlice (s : PyStr) (a b : Nat) : PyStr := (s.take b).drop a

/-! ### A small backtracking regex matcher

The abstract syntax covers exactly the constructs used by the three patterns
in app.py: character classes, concatenation, alternation, greedy and lazy
repetition, and capturing groups.  Matching enumerates candidate outcomes in
the preference order of the Python engine and finditer keeps the first. -/

inductive RE where
  | eps : RE
  | cls (p : Char → Bool) : RE
  | seq (a b : RE) : RE
  | alt (a b : RE) : RE
  | star (a : RE) : RE
  | starL (a : RE) : RE
  | group (n : Nat) (a : RE) : RE

abbrev Caps := List (Nat × Nat × Nat)

/-- A match outcome: end position, remaining suffix, captured group spans. -/
abbrev MRes := Nat × PyStr × Caps

/-- A success continuation: the rest of the pattern, applied to the end
position, the remaining suffix and the captures so far. -/
abbrev MCont := Nat → PyStr → Caps → Option MRes

/-- One level of the backtracking matcher: prev is the whole matcher at the
next lower fuel level, used to unfold one repetition step of star and
starL; the other constructors recurse structurally on the pattern at the
same level.  Candidates are explored in exactly the Python engine's
preference order (left alternative first, greedy repetition with more
iterations first, lazy repetition with fewer first) and the first success
of the continuation is returned.  Empty-width repetition steps are pruned
as in the Python engine. -/
def mfirstAux (prev : RE → Nat → PyStr → MCont → Option MRes) :
    RE → Nat → PyStr → MCont → Option MRes
  | .eps, pos, s, k => k pos s []
  | .cls p, pos, s, k =>
    match s with
    | c :: r => if p c then k (pos + 1) r [] else none
    | [] => none
  | .seq a b, pos, s, k =>
    mfirstAux prev a pos s fun p1 s1 c1 =>
      mfirstAux prev b p1 s1 fun p2 s2 c2 => k p2 s2 (c1 ++ c2)
  | .alt a b, pos, s, k =>
    match mfirstAux prev a pos s k with
    | some r => some r
    | none => mfirstAux prev b pos s k
  | .star a, pos, s, k =>
    match prev a pos s fun p1 s1 c1 =>
        if p1 = pos then none
        else prev (.star a) p1 s1 fun p2 s2 c2 => k p2 s2 (c1 ++ c2) with
    | some r => some r
    | none => k pos s []
  | .starL a, pos, s, k =>
    match k pos s [] with
    | some r => some r
    | none =>
      prev a pos s fun p1 s1 c1 =>
        if p1 = pos then none
        else prev (.starL a) p1 s1 fun p2 s2 c2 => k p2 s2 (c1 ++ c2)
  | .group n a, pos, s, k =>
    mfirstAux prev a pos s fun p1 s1 c1 => k p1 s1 (c1 ++ [(n, pos, p1)])

/-- The backtracking matcher.  The fuel bounds repetition unfolding; with
the fuel used by reMatchAt it never runs out, since every counted
repetition step consumes at least one character. -/
def mfirst : Nat → RE → Nat → PyStr → MCont → Option MRes
  | 0 => mfirstAux fun _ _ _ _ => none
  | fuel + 1 => mfirstAux (mfirst fuel)

def rePlus (a : RE) : RE := .seq a (.star a)

def reOpt (a : RE) : RE := .alt a .eps

def reChar (c : Char) : RE := .cls (· = c)

def reLits (l : PyStr) : RE := l.foldr (fun c acc => .seq (reChar c) acc) .eps

/-- The match attempt at the given position, as Python re does at each scan
position: the first candidate in engine preference order. -/
def reMatchAt (re : RE) (pos : Nat) (s : PyStr) : Option MRes :=
  mfirst (2 * s.length + 2) re pos s fun p r caps => some (p, r, caps)

/-- re.finditer: scan left to right, take the first match at the leftmost
position, continue after its end (advancing one position on an empty match). -/
def reFindAux (re : RE) : Nat → Nat → PyStr → List (Nat × Nat × Caps)
  | 0, _, _ => []
  | fuel + 1, pos, s =>
    match reMatchAt re pos s with
    | some (e, rest, caps) =>
      if e = pos then
        match s with
        | [] => []
        | _ :: t => reFindAux re fuel (pos + 1) t
      else (pos, e, caps) :: reFindAux re fuel e rest
    | none =>
      match s with
      | [] => []
      | _ :: t => reFindAux re fuel (pos + 1) t

def reFinditer (re : RE) (s : PyStr) : List (Nat × Nat × Caps) :=
  reFindAux re (s.length + 1) 0 s

/-- Remove every match of a pattern from a string (re.sub with empty
replacement); finditer spans are ascending and non-overlapping. -/
def cutSpansAux : PyStr → Nat → List (Nat × Nat) → PyStr
  | s, _, [] => s
  | s, pos, (a, b) :: rest => s.take (a - pos) ++ cutSpansAux (s.drop (b - pos)) b rest

def reSubEmpty (re : RE) (s : PyStr) : PyStr :=
  cutSpansAux s 0 ((reFinditer re s).map fun m => (m.1, m.2.1))

/-! ### The three patterns from app.py -/

def notNl (c : Char) : Bool := c ≠ '\n'

/-- The class [-:\s|] of the pipe-table separator row. -/
def isSepCls (c : Char) : Bool := c = '-' || c = ':' || c = '|' || isPySpace c

/-- Line terminator (?:\r?\n|\r). -/
def lineEndRE : RE := .alt (.seq (reOpt (reChar '\r')) (reChar '\n')) (reChar '\r')

/-- One table line: \|[^\n]*\|(?:\r?\n|\r). -/
def pipeLineRE : RE :=
  .seq (reChar '|') (.seq (.star (.cls notNl)) (.seq (reChar '|') lineEndRE))

/-- The pipe-table pattern
\|[^\n]*\|(?:\r?\n|\r)\|[-:\s|]+\|(?:\r?\n|\r)((?:\|[^\n]*\|(?:\r?\n|\r))+). -/
def pipeTableRE : RE :=
  .seq pipeLineRE
    (.seq (reChar '|')
      (.seq (rePlus (.cls isSepCls))
        (.seq (reChar '|')
          (.seq lineEndRE (.group 1 (rePlus pipeLineRE))))))

def notNlPipe (c : Char) : Bool := c ≠ '\n' && c ≠ '|'

def isDashColon (c : Char) : Bool := c = ':' || c = '-'

/-- The tab-table pattern
([^\n\|]+\t[^\n\|]+)\s*\n\s*([:-]+\s+[:-]+.*?)\s*\n((?:[^\n\|]+\t[^\n\|]+\s*\n?)+). -/
def tabTableRE : RE :=
  .seq (.group 1 (.seq (rePlus (.cls notNlPipe))
                   (.seq (reChar '\t') (rePlus (.cls notNlPipe)))))
    (.seq (.star (.cls isPySpace))
      (.seq (reChar '\n')
        (.seq (.star (.cls isPySpace))
          (.seq (.group 2 (.seq (rePlus (.cls isDashColon))
                            (.seq (rePlus (.cls isPySpace))
                              (.seq (rePlus (.cls isDashColon)) (.starL (.cls notNl))))))
            (.seq (.star (.cls isPySpace))
              (.seq (reChar '\n')
                (.group 3 (rePlus (.seq (rePlus (.cls notNlPipe))
                  (.seq (reChar '\t')
                    (.seq (rePlus (.cls notNlPipe))
                      (.seq (.star (.cls isPySpace)) (reOpt (reChar '\n'))))))))))))))

/-- The agent-name tag pattern <name>(.*?)</name>. -/
def nameTagRE : RE :=
  .seq (reLits (pyStr "<name>"))
    (.seq (.group 1 (.starL (.cls notNl))) (reLits (pyStr "</name>")))

/-! ### parse_markdown_table -/

structure PyTable where
  header : List PyStr
  rows : List (List PyStr)
  deriving DecidableEq

/-- The line list of one pipe-table match: strip the match, split on
newlines, keep the stripped form of every line that is nonempty after
stripping and contains a pipe. -/
def pipeLinesOf (m : PyStr) : List PyStr :=
  ((splitChar '\n' (pyStrip m)).filter
    fun l => !(pyStrip l).isEmpty && l.contains '|').map pyStrip

/-- A separator line: has a pipe and a dash and nothing besides
pipe / dash / colon / space / tab. -/
def isSepLine (l : PyStr) : Bool :=
  l.contains '|' && l.contains '-' &&
    (l.filter fun c => !(c = '|' || c = '-' || c = ':' || c = ' ' || c = '\t')).isEmpty

/-- Split a line on pipes and strip each cell. -/
def splitCells (line : PyStr) : List PyStr := (splitChar '|' line).map pyStrip

/-- Drop empty cells from the start and the end of a cell list. -/
def stripEdges (cells : List PyStr) : List PyStr :=
  ((cells.dropWhile List.isEmpty).reverse.dropWhile List.isEmpty).reverse

/-- Truncate to n cells and right-pad with empty strings to exactly n. -/
def fitTo (n : Nat) (l : List PyStr) : List PyStr :=
  l.take n ++ List.replicate (n - (l.take n).length) []

/-- Column-count reconciliation of one data row (smart column extraction):
an over-long row whose first cell is purely numeric drops that cell, any
other over-long row keeps the first n cells, a short row is right-padded. -/
def reconcileRow (n : Nat) (raw : List PyStr) : List PyStr :=
  let cells :=
    if n < raw.length then
      if pyIsDigit (raw.headD []) then (raw.drop 1).take n else raw.take n
    else if raw.length = n then raw
    else raw ++ List.replicate (n - raw.length) []
  fitTo n cells

/-- The surviving data rows: skip lines whose cells vanish after edge
stripping, reconcile the rest, and keep only rows with a non-empty cell. -/
def pipeRowsOf (n : Nat) (dataLines : List PyStr) : List (List PyStr) :=
  dataLines.filterMap fun line =>
    let raw := stripEdges (splitCells line)
    if raw.isEmpty then none
    else
      let cells := reconcileRow n raw
      if !cells.isEmpty && cells.any (fun c => !c.isEmpty) then some cells else none

/-- Process the text of one pipe-pattern match into a table, mirroring the
guarded steps of the Python loop body (a None is a skipped candidate). -/
def processPipeMatch (m : PyStr) : Option PyTable :=
  let lines := pipeLinesOf m
  if lines.length < 2 then none
  else
    match lines.findIdx? isSepLine with
    | none => none
    | some sepIdx =>
      if sepIdx = 0 then none
      else
        let headers := stripEdges (splitCells (lines.getD (sepIdx - 1) []))
        if headers.isEmpty then none
        else
          let data := pipeRowsOf headers.length (lines.drop (sepIdx + 1))
          if data.isEmpty then none else some ⟨headers, data⟩

/-- Process one tab-pattern match from its group-1 (header line) and
group-3 (data block) texts. -/
def processTabMatch (g1 g3 : PyStr) : Option PyTable :=
  let headers := ((splitChar '\t' (pyStrip g1)).map pyStrip).filter fun h => !h.isEmpty
  if headers.isEmpty then none
  else
    let data := (splitChar '\n' (pyStrip g3)).filterMap fun line =>
      if (pyStrip line).isEmpty then none
      else
        let cells := (splitChar '\t' line).map pyStrip
        if cells.length = headers.length then some cells else none
    if data.isEmpty then none else some ⟨headers, data⟩

/-- Span of a capture group in a finditer match. -/
def capSpan (caps : Caps) (n : Nat) : Nat × Nat :=
  match caps.find? fun x => x.1 = n with
  | some x => (x.2.1, x.2.2)
  | none => (0, 0)

/-- Stable ascending insertion by span start (Python sorted with key start). -/
def insByStart (x : PyTable × Nat × Nat) :
    List (PyTable × Nat × Nat) → List (PyTable × Nat × Nat)
  | [] => [x]
  | y :: r => if y.2.1 ≤ x.2.1 then y :: insByStart x r else x :: y :: r

def sortByStart : List (PyTable × Nat × Nat) → List (PyTable × Nat × Nat)
  | [] => []
  | x :: r => insByStart x (sortByStart r)

/-- parse_markdown_table: pipe-pattern tables first, then tab-pattern
tables, then remove the recognized spans (working from the last span by
start position to the first) and strip the remainder. -/
def parse_markdown_table (text : PyStr) : List (PyTable × Nat × Nat) × PyStr :=
  let pipeTables := (reFinditer pipeTableRE text).filterMap fun m =>
    (processPipeMatch (pySlice text m.1 m.2.1)).map fun t => (t, m.1, m.2.1)
  let tabTables := (reFinditer tabTableRE text).filterMap fun m =>
    let s1 := capSpan m.2.2 1
    let s3 := capSpan m.2.2 3
    (processTabMatch (pySlice text s1.1 s1.2) (pySlice text s3.1 s3.2)).map
      fun t => (t, m.1, m.2.1)
  let tables := pipeTables ++ tabTables
  let remaining := ((sortByStart tables).reverse).foldl
    (fun (acc : PyStr) x => acc.take x.2.1 ++ acc.drop x.2.2) text
  (tables, pyStrip remaining)

/-! ### format_response_content -/

/-- One renderable unit of the formatted reply.  badge, paragraph and table
mirror the AgentBadge / Paragraph / Table segments; headerOnly stands for
the two-paragraph header-acknowledgement block and rawEcho for the plain
inline echo of the cleaned content, the two non-Paragraph fallback shapes. -/
inductive Segment where
  | badge (name : PyStr)
  | paragraph (text : PyStr)
  | table (t : PyTable)
  | headerOnly (text : PyStr)
  | rawEcho (text : PyStr)
  deriving DecidableEq

/-- Result of a Python call: a value, or an uncaught exception. -/
inductive PyResult (α : Type) where
  | ok (a : α)
  | exn
  deriving DecidableEq

/-- Word character of the regex class \w (ASCII model). -/
def isWordChar (c : Char) : Bool := c.isAlphanum || c = '_'

/-- re.sub of the token \bEMPTY\b (ignoring case) by the empty string:
scan left to right carrying whether the previous character is a word
character, and drop each case-insensitive EMPTY between word boundaries. -/
def removeEmptyAux : Bool → PyStr → PyStr
  | _, [] => []
  | prevW, c1 :: c2 :: c3 :: c4 :: c5 :: r =>
    if !prevW && [c1, c2, c3, c4, c5].map Char.toLower = pyStr "empty"
        && !(isWordChar (r.headD ' ')) then
      removeEmptyAux true r
    else c1 :: removeEmptyAux (isWordChar c1) (c2 :: c3 :: c4 :: c5 :: r)
  | _, c :: r => c :: removeEmptyAux (isWordChar c) r

/-- The agent names captured by the findall over the name-tag pattern. -/
def agentNamesOf (content : PyStr) : List PyStr :=
  (reFinditer nameTagRE content).map fun m =>
    let s := capSpan m.2.2 1
    pySlice content s.1 s.2

/-- content_clean: strip the name tags, strip whitespace, drop EMPTY markers. -/
def contentCleanOf (content : PyStr) : PyStr :=
  removeEmptyAux false (pyStrip (reSubEmpty nameTagRE content))

/-- Collapse each run of spaces and tabs to one space
(re.sub of [ \t]+ by a single space); the flag records whether the
previous character belonged to a run already replaced. -/
def collapseHTAux : Bool → PyStr → PyStr
  | _, [] => []
  | inRun, c :: r =>
    if c = ' ' || c = '\t' then
      if inRun then collapseHTAux true r else ' ' :: collapseHTAux true r
    else c :: collapseHTAux false r

def collapseHT (s : PyStr) : PyStr := collapseHTAux false s

/-- dict.fromkeys deduplication: keep the first occurrence of each name. -/
def dedupKeepFirstAux (seen : List PyStr) : List PyStr → List PyStr
  | [] => []
  | x :: r => if x ∈ seen then dedupKeepFirstAux seen r
              else x :: dedupKeepFirstAux (x :: seen) r

/-- Worker agents: deduplicated names whose lowercase form does not contain
the substring supervisor. -/
def workerAgentsOf (content : PyStr) : List PyStr :=
  (dedupKeepFirstAux [] (agentNamesOf content)).filter fun a =>
    !containsSub (pyStr "supervisor") (pyLower a)

/-- Badge label: underscores to spaces, then title case. -/
def displayName (a : PyStr) : PyStr :=
  pyTitle (a.map fun c => if c = '_' then ' ' else c)

def badgeSegsOf (content : PyStr) : List Segment :=
  (workerAgentsOf content).map fun a => .badge (displayName a)

/-- A paragraph that is pure separator punctuation (regex ^[-:\s|]+$). -/
def sepOnlyPara (p : PyStr) : Bool :=
  !p.isEmpty && p.all fun c => c = '-' || c = ':' || isPySpace c || c = '|'

/-- The emitted paragraphs: split the normalized summary on newlines, strip,
keep lines longer than three characters, then drop separator remnants and
lines with a pipe among their first ten characters. -/
def paraTextsOf (summary : PyStr) : List PyStr :=
  (((splitChar '\n' summary).map pyStrip).filter fun p => 3 < p.length).filter
    fun p => !sepOnlyPara p && !(p.take 10).contains '|'

def paraSegsOf (summary : PyStr) : List Segment :=
  (paraTextsOf summary).map .paragraph

def countOcc (x : PyStr) (l : List PyStr) : Nat :=
  (l.filter fun y => decide (y = x)).length

/-- The has_data loop over df.columns.  Selecting a duplicated column label
yields a DataFrame, whose elementwise truth value raises ValueError; a
unique label yields its column, which counts as data if any cell is a
non-empty string (string cells are never NaN). -/
def hasDataAux (header : List PyStr) (rows : List (List PyStr)) :
    Nat → List PyStr → PyResult Bool
  | _, [] => .ok false
  | i, col :: rest =>
    if 1 < countOcc col header then .exn
    else if rows.any fun r => !(r.getD i []).isEmpty then .ok true
    else hasDataAux header rows (i + 1) rest

def hasDataCheck (t : PyTable) : PyResult Bool := hasDataAux t.header t.rows 0 t.header

/-- Only the last table is shown when more than one was extracted. -/
def tablesToDisplay (ts : List PyTable) : List PyTable :=
  if 1 < ts.length then
    match ts.getLast? with
    | some t => [t]
    | none => []
  else ts

/-- Emit the displayed tables, skipping empty ones and those without data. -/
def emitTables : List PyTable → PyResult (List Segment)
  | [] => .ok []
  | t :: rest =>
    if t.rows.isEmpty then emitTables rest
    else
      match hasDataCheck t with
      | .exn => .exn
      | .ok b =>
        match emitTables rest with
        | .exn => .exn
        | .ok segs => .ok ((if b then [Segment.table t] else []) ++ segs)

/-- Segment assembly before the fallback: badges, then paragraphs of the
whitespace-normalized summary, then the displayed tables. -/
def assembleCore (content : PyStr) : PyResult (List Segment) :=
  let clean := contentCleanOf content
  let parsed := parse_markdown_table clean
  let summary := pyStrip (collapseHT parsed.2)
  match emitTables (tablesToDisplay (parsed.1.map fun x => x.1)) with
  | .exn => .exn
  | .ok tsegs => .ok (badgeSegsOf content ++ paraSegsOf summary ++ tsegs)

def emptyRespNotice : PyStr :=
  pyStr "⚠️ The agent returned an empty or incomplete response. Please try rephrasing your question."

/-- The fallback component emitted when assembly produced nothing: the fixed
notice for very short content, the header-acknowledgement block for short
bold-prefixed content, otherwise an inline echo of the cleaned content. -/
def fallbackFor (clean : PyStr) : Segment :=
  if clean.length < 5 then .paragraph emptyRespNotice
  else if clean.take 2 = pyStr "**" ∧ clean.length < 50 then .headerOnly clean
  else .rawEcho clean

def format_response_content (content : PyStr) : PyResult (List Segment) :=
  match assembleCore content with
  | .exn => .exn
  | .ok comps =>
    .ok (if comps.isEmpty then [fallbackFor (contentCleanOf content)] else comps)

/-! ### get_agent_response: extracting text from the raw reply -/

/-- A dynamically accessed attribute: absent, present but None, or a value. -/
inductive PyField (α : Type) where
  | missing : PyField α
  | null : PyField α
  | val (a : α) : PyField α
  deriving DecidableEq

structure RContent where
  text : PyField PyStr
  deriving DecidableEq

structure ROutput where
  content : PyField (List RContent)
  deriving DecidableEq

structure RReply where
  output : List ROutput
  deriving DecidableEq

/-- getattr(content, "text", ""): a missing field reads as the empty string,
and a None value behaves like it in the falsy collection test. -/
def textValOf (c : RContent) : PyStr :=
  match c.text with
  | .missing => []
  | .null => []
  | .val s => s

/-- A fragment is collected when its text is non-blank after trimming, and
the trimmed text is what gets collected. -/
def pickText (c : RContent) : Option PyStr :=
  if (pyStrip (textValOf c)).isEmpty then none else some (pyStrip (textValOf c))

/-- getattr(output, "content", []): missing reads as the empty sequence, but
iterating over a present None value raises TypeError. -/
def contentsOf (o : ROutput) : PyResult (List RContent) :=
  match o.content with
  | .missing => .ok []
  | .null => .exn
  | .val l => .ok l

/-- The collection loop of get_agent_response over outputs and contents. -/
def extractParts : List ROutput → PyResult (List PyStr)
  | [] => .ok []
  | o :: rest =>
    match contentsOf o with
    | .exn => .exn
    | .ok cs =>
      match extractParts rest with
      | .exn => .exn
      | .ok ps => .ok (cs.filterMap pickText ++ ps)

/-- The joined response text, or the uncaught exception of the loop. -/
def extractedTextOf (r : RReply) : PyResult PyStr :=
  match extractParts r.output with
  | .exn => .exn
  | .ok parts => .ok (joinNl parts)

/-- What get_agent_response hands back after its try/except: the joined
text, the fixed empty-response notice, or a caught-exception error string. -/
inductive AgentResponse where
  | text (s : PyStr) : AgentResponse
  | emptyNotice : AgentResponse
  | caughtError : AgentResponse
  deriving DecidableEq

def get_agent_response_core (r : RReply) : AgentResponse :=
  match extractedTextOf r with
  | .exn => .caughtError
  | .ok t => if (pyStrip t).isEmpty then .emptyNotice else .text t

/-- The content elements an output element contributes in traversal order. -/
def contentListOf (o : ROutput) : List RContent :=
  match o.content with
  | .val l => l
  | _ => []

/-- The text fields in traversal order: outputs in order, then contents. -/
def fieldsOf (r : RReply) : List PyStr :=
  r.output.flatMap fun o => (contentListOf o).map textValOf

/-- Replace every absent field by its empty default (content by the empty
sequence, text by the empty string), leaving present values alone. -/
def normContent (c : RContent) : RContent :=
  match c.text with
  | .missing => ⟨.val []⟩
  | x => ⟨x⟩

def normOutput (o : ROutput) : ROutput :=
  match o.content with
  | .missing => ⟨.val []⟩
  | .null => ⟨.null⟩
  | .val l => ⟨.val (l.map normContent)⟩

/-! ### Definitions taken from the specification text, for comparison -/

/-- Modelled from the spec: the newline-join of the raw text fields in
traversal order with blank-after-trimming fragments dropped, as the
round-trip property of section 8 words it (no trimming of kept fields). -/
def specJoinFields (r : RReply) : PyStr :=
  joinNl ((fieldsOf r).filter fun s => !(pyStrip s).isEmpty)

/-- Split a line list into groups at blank lines. -/
def splitAtBlanks : List PyStr → List (List PyStr)
  | [] => [[]]
  | l :: r =>
    let ps := splitAtBlanks r
    if (pyStrip l).isEmpty then [] :: ps
    else
      match ps with
      | p :: rest => (l :: p) :: rest
      | [] => [[l]]

/-- Modelled from the spec: split the normalized summary into paragraphs on
blank lines, emit each non-blank paragraph, skipping a paragraph that is
pure bar/dash/colon/whitespace, as section 4.2 step 5 words it. -/
def specBlankLineParas (summary : PyStr) : List PyStr :=
  (((splitAtBlanks (splitChar '\n' summary)).filter fun g => !g.isEmpty).map joinNl).filter
    fun p => !sepOnlyPara p

/-- The name carried by a badge segment. -/
def segBadgeName : Segment → Option PyStr
  | .badge n => some n
  | _ => none

/-- The text carried by a paragraph segment. -/
def segParaText : Segment → Option PyStr
  | .paragraph t => some t
  | _ => none

def isTableSeg : Segment → Bool
  | .table _ => true
  | _ => false

/-! ### Lemmas about the table parser -/

theorem fitTo_length (n : Nat) (l : List PyStr) : (fitTo n l).length = n := by
  have h : (l.take n).length ≤ n := by
    simp
  simp only [fitTo, List.length_append, List.length_replicate]
  omega

theorem reconcileRow_length (n : Nat) (raw : List PyStr) :
    (reconcileRow n raw).length = n := by
  simp only [reconcileRow]
  exact fitTo_length n _

theorem reconcileRow_nil (n : Nat) (hn : 0 < n) :
    reconcileRow n [] = List.replicate n [] := by
  cases n with
  | zero => omega
  | succ m => simp [reconcileRow, fitTo, List.take_replicate]

theorem mem_pipeRowsOf {n : Nat} {ls : List PyStr} {r : List PyStr}
    (h : r ∈ pipeRowsOf n ls) :
    r.length = n ∧ r.any (fun c => !c.isEmpty) = true := by
  rw [pipeRowsOf, List.mem_filterMap] at h
  obtain ⟨line, _, hline⟩ := h
  dsimp only at hline
  split at hline
  · exact absurd hline (by simp)
  · split at hline
    · rename_i hkeep
      rw [Bool.and_eq_true] at hkeep
      cases hline
      exact ⟨reconcileRow_length n _, hkeep.2⟩
    · exact absurd hline (by simp)

theorem filterMap_guard_eq_filter_map {α β : Type} (f : α → β) (p : β → Bool)
    (l : List α) :
    l.filterMap (fun a => if p (f a) then some (f a) else none) =
      (l.map f).filter p := by
  induction l with
  | nil => rfl
  | cons a r ih =>
    rw [List.filterMap_cons, List.map_cons, List.filter_cons]
    by_cases h : p (f a)
    · simp only [h, if_pos, ih]
    · simp only [h, if_neg, ih, Bool.false_eq_true, not_false_eq_true]

theorem pipeRowsOf_eq_filter (n : Nat) (hn : 0 < n) (ls : List PyStr) :
    pipeRowsOf n ls =
      (ls.map fun l => reconcileRow n (stripEdges (splitCells l))).filter
        fun r => r.any fun c => !c.isEmpty := by
  rw [pipeRowsOf]
  have hpt : (fun line => (
      let raw := stripEdges (splitCells line)
      if raw.isEmpty then none
      else
        let cells := reconcileRow n raw
        if !cells.isEmpty && cells.any (fun c => !c.isEmpty) then some cells else none))
      = fun line =>
        if (reconcileRow n (stripEdges (splitCells line))).any (fun c => !c.isEmpty) then
          some (reconcileRow n (stripEdges (splitCells line))) else none := by
    funext line
    dsimp only
    by_cases hraw : (stripEdges (splitCells line)).isEmpty
    · rw [if_pos hraw]
      have hrepl : reconcileRow n (stripEdges (splitCells line)) = List.replicate n [] := by
        rw [List.isEmpty_iff.mp hraw]
        exact reconcileRow_nil n hn
      rw [hrepl]
      have hfalse : ((List.replicate n ([] : PyStr)).any fun c => !c.isEmpty) = false := by
        simp
      rw [hfalse]
      rfl
    · rw [if_neg hraw]
      have hne : (reconcileRow n (stripEdges (splitCells line))).isEmpty = false := by
        have hlen := reconcileRow_length n (stripEdges (splitCells line))
        cases hgl : reconcileRow n (stripEdges (splitCells line)) with
        | nil => rw [hgl] at hlen; simp at hlen; omega
        | cons x xs => rfl
      rw [hne]
      simp only [Bool.not_false, Bool.true_and]
  rw [hpt]
  exact filterMap_guard_eq_filter_map
    (fun l => reconcileRow n (stripEdges (splitCells l)))
    (fun r => r.any fun c => !c.isEmpty) ls

theorem processPipeMatch_spec {m : PyStr} {t : PyTable}
    (h : processPipeMatch m = some t) :
    ∃ si, (pipeLinesOf m).findIdx? isSepLine = some si ∧ si ≠ 0 ∧
      t.header = stripEdges (splitCells ((pipeLinesOf m).getD (si - 1) [])) ∧
      t.header ≠ [] ∧
      t.rows = pipeRowsOf t.header.length ((pipeLinesOf m).drop (si + 1)) ∧
      t.rows ≠ [] := by
  rw [processPipeMatch] at h
  split at h
  · exact absurd h (by simp)
  · split at h
    · exact absurd h (by simp)
    · rename_i si hfind
      split at h
      · exact absurd h (by simp)
      · rename_i hsi
        dsimp only at h
        split at h
        · exact absurd h (by simp)
        · rename_i hhdr
          split at h
          · exact absurd h (by simp)
          · rename_i hdata
            cases h
            refine ⟨si, hfind, hsi, rfl, ?_, rfl, ?_⟩
            · simp only [List.isEmpty_iff] at hhdr
              exact hhdr
            · simp only [List.isEmpty_iff] at hdata
              exact hdata

theorem pyStrip_eq_nil_iff {s : PyStr} :
    pyStrip s = [] ↔ ∀ c ∈ s, isPySpace c := by
  constructor
  · intro h c hc
    rw [pyStrip, List.reverse_eq_nil_iff, List.dropWhile_eq_nil_iff] at h
    rcases (List.takeWhile_append_dropWhile isPySpace s ▸ hc : _) with hmem
    rw [List.mem_append] at hmem
    rcases hmem with h1 | h1
    · exact List.mem_takeWhile_imp h1
    · exact h c (by simpa using h1)
  · intro h
    rw [pyStrip]
    have h1 : s.dropWhile isPySpace = [] := List.dropWhile_eq_nil_iff.mpr h
    rw [h1]
    rfl

theorem exists_mem_splitChar {sep c : Char} {l : PyStr}
    (hc : c ∈ l) (hne : c ≠ sep) : ∃ p ∈ splitChar sep l, c ∈ p := by
  induction l with
  | nil => cases hc
  | cons a r ih =>
    rw [splitChar]
    rcases List.mem_cons.mp hc with rfl | hmem
    · rw [if_neg (by simpa using hne)]
      rcases hps : splitChar sep r with _ | ⟨p, rest⟩
      · exact ⟨[c], by simp, by simp⟩
      · exact ⟨c :: p, by simp, by simp⟩
    · rcases ih hmem with ⟨p, hp, hcp⟩
      by_cases ha : a = sep
      · rw [if_pos ha]
        exact ⟨p, List.mem_cons_of_mem _ hp, hcp⟩
      · rw [if_neg ha]
        rcases hps : splitChar sep r with _ | ⟨p0, rest⟩
        · rw [hps] at hp; cases hp
        · rw [hps] at hp
          rcases List.mem_cons.mp hp with rfl | hprest
          · exact ⟨a :: p, by simp, List.mem_cons_of_mem _ hcp⟩
          · exact ⟨p, List.mem_cons_of_mem _ hprest, hcp⟩

theorem tab_line_has_cell {line : PyStr} (h : pyStrip line ≠ []) :
    ∃ cell ∈ (splitChar '\t' line).map pyStrip, cell ≠ [] := by
  have hc : ∃ c ∈ line, ¬ isPySpace c := by
    by_contra hall
    push_neg at hall
    exact h (pyStrip_eq_nil_iff.mpr (by simpa using hall))
  obtain ⟨c, hcl, hcs⟩ := hc
  have hnt : c ≠ '\t' := by
    intro hc2
    rw [hc2] at hcs
    simp [isPySpace] at hcs
  obtain ⟨p, hp, hcp⟩ := exists_mem_splitChar hcl hnt
  refine ⟨pyStrip p, List.mem_map_of_mem pyStrip hp, ?_⟩
  intro hnil
  exact hcs (pyStrip_eq_nil_iff.mp hnil c hcp)

theorem processTabMatch_spec {g1 g3 : PyStr} {t : PyTable}
    (h : processTabMatch g1 g3 = some t) :
    t.header ≠ [] ∧ t.rows ≠ [] ∧
      (∀ r ∈ t.rows, r.length = t.header.length) ∧
      ∀ r ∈ t.rows, ∃ c ∈ r, c ≠ [] := by
  rw [processTabMatch] at h
  split at h
  · exact absurd h (by simp)
  · rename_i hhdr
    dsimp only at h
    split at h
    · exact absurd h (by simp)
    · rename_i hdata
      cases h
      refine ⟨by simpa [List.isEmpty_iff] using hhdr, by simpa [List.isEmpty_iff] using hdata, ?_, ?_⟩
      · intro r hr
        rw [List.mem_filterMap] at hr
        obtain ⟨line, _, hline⟩ := hr
        split at hline
        · exact absurd hline (by simp)
        · split at hline
          · rename_i hlen
            cases hline
            exact hlen
          · exact absurd hline (by simp)
      · intro r hr
        rw [List.mem_filterMap] at hr
        obtain ⟨line, _, hline⟩ := hr
        split at hline
        · exact absurd hline (by simp)
        · rename_i hstrip
          split at hline
          · cases hline
            have hx := tab_line_has_cell (by simpa [List.isEmpty_iff] using hstrip)
            obtain ⟨cell, hcell, hne⟩ := hx
            exact ⟨cell, hcell, hne⟩
          · exact absurd hline (by simp)

/-! ### Lemmas about the has_data check and table emission -/

theorem countOcc_cons (x a : PyStr) (r : List PyStr) :
    countOcc x (a :: r) = (if a = x then 1 else 0) + countOcc x r := by
  rw [countOcc, countOcc, List.filter_cons]
  by_cases h : a = x
  · simp [h, Nat.add_comm]
  · simp [h]

theorem countOcc_eq_zero_of_not_mem {x : PyStr} {l : List PyStr} (h : x ∉ l) :
    countOcc x l = 0 := by
  rw [countOcc, List.length_eq_zero, List.filter_eq_nil_iff]
  intro a ha
  simp only [decide_eq_true_eq]
  intro hax
  exact h (hax ▸ ha)

theorem nodup_countOcc_le_one {header : List PyStr} (h : header.Nodup) :
    ∀ col ∈ header, countOcc col header ≤ 1 := by
  induction header with
  | nil => intro col hcol; cases hcol
  | cons a r ih =>
    rw [List.nodup_cons] at h
    intro col hcol
    rw [countOcc_cons]
    rcases List.mem_cons.mp hcol with rfl | hmem
    · rw [if_pos rfl, countOcc_eq_zero_of_not_mem h.1]
    · have hne : a ≠ col := fun hax => h.1 (hax ▸ hmem)
      rw [if_neg hne]
      simpa using ih h.2 col hmem

theorem hasDataAux_ok_true {header : List PyStr} {rows : List (List PyStr)} :
    ∀ (cols : List PyStr) (i : Nat),
      (∀ col ∈ cols, countOcc col header ≤ 1) →
      (∃ k, i ≤ k ∧ k < i + cols.length ∧
        (rows.any fun r => !(r.getD k []).isEmpty) = true) →
      hasDataAux header rows i cols = .ok true := by
  intro cols
  induction cols with
  | nil =>
    intro i _ hex
    obtain ⟨k, h1, h2, _⟩ := hex
    simp at h2
    omega
  | cons col rest ih =>
    intro i hcount hex
    obtain ⟨k, hik, hlt, hany⟩ := hex
    rw [hasDataAux]
    rw [if_neg (by have := hcount col (List.mem_cons_self col rest); omega)]
    by_cases hcur : (rows.any fun r => !(r.getD i []).isEmpty) = true
    · rw [if_pos hcur]
    · rw [if_neg hcur]
      apply ih (i + 1) (fun c hc => hcount c (List.mem_cons_of_mem _ hc))
      have hki : k ≠ i := fun hk => hcur (hk ▸ hany)
      exact ⟨k, by omega, by simp at hlt ⊢; omega, hany⟩

theorem hasDataAux_ne_ok_false {header : List PyStr} {rows : List (List PyStr)} :
    ∀ (cols : List PyStr) (i : Nat),
      (∃ k, i ≤ k ∧ k < i + cols.length ∧
        (rows.any fun r => !(r.getD k []).isEmpty) = true) →
      hasDataAux header rows i cols ≠ .ok false := by
  intro cols
  induction cols with
  | nil =>
    intro i hex
    obtain ⟨k, h1, h2, _⟩ := hex
    simp at h2
    omega
  | cons col rest ih =>
    intro i hex
    obtain ⟨k, hik, hlt, hany⟩ := hex
    rw [hasDataAux]
    by_cases hdup : 1 < countOcc col header
    · rw [if_pos hdup]
      simp
    · rw [if_neg hdup]
      by_cases hcur : (rows.any fun r => !(r.getD i []).isEmpty) = true
      · rw [if_pos hcur]
        simp
      · rw [if_neg hcur]
        apply ih (i + 1)
        have hki : k ≠ i := fun hk => hcur (hk ▸ hany)
        exact ⟨k, by omega, by simp at hlt ⊢; omega, hany⟩

theorem exists_data_col {header : List PyStr} {rows : List (List PyStr)}
    (hlen : ∀ r ∈ rows, r.length = header.length)
    (hex : ∃ r ∈ rows, ∃ c ∈ r, c ≠ []) :
    ∃ k, k < header.length ∧ (rows.any fun r => !(r.getD k []).isEmpty) = true := by
  obtain ⟨r, hr, c, hc, hcne⟩ := hex
  obtain ⟨j, hj, hrj⟩ := List.getElem_of_mem hc
  refine ⟨j, by rw [← hlen r hr]; exact hj, ?_⟩
  rw [List.any_eq_true]
  refine ⟨r, hr, ?_⟩
  have hgd : r.getD j [] = c := by
    rw [List.getD_eq_getElem?_getD, List.getElem?_eq_getElem hj, hrj]
    rfl
  rw [hgd]
  cases hcl : c with
  | nil => exact absurd hcl hcne
  | cons x xs => rfl

theorem hasDataCheck_true {t : PyTable} (hnd : t.header.Nodup)
    (hlen : ∀ r ∈ t.rows, r.length = t.header.length)
    (hex : ∃ r ∈ t.rows, ∃ c ∈ r, c ≠ []) :
    hasDataCheck t = .ok true := by
  obtain ⟨k, hk, hany⟩ := exists_data_col hlen hex
  exact hasDataAux_ok_true t.header 0 (nodup_countOcc_le_one hnd)
    ⟨k, Nat.zero_le k, by omega, hany⟩

theorem hasDataCheck_ne_false {t : PyTable}
    (hlen : ∀ r ∈ t.rows, r.length = t.header.length)
    (hex : ∃ r ∈ t.rows, ∃ c ∈ r, c ≠ []) :
    hasDataCheck t ≠ .ok false := by
  obtain ⟨k, hk, hany⟩ := exists_data_col hlen hex
  exact hasDataAux_ne_ok_false t.header 0 ⟨k, Nat.zero_le k, by omega, hany⟩

theorem emitTables_singleton {t : PyTable} (hrows : t.rows ≠ [])
    (hck : hasDataCheck t = .ok true) :
    emitTables [t] = .ok [.table t] := by
  rw [emitTables]
  rw [if_neg (by simpa [List.isEmpty_iff] using hrows), hck]
  rfl

theorem emitTables_all_table :
    ∀ {ts : List PyTable} {segs : List Segment}, emitTables ts = .ok segs →
      ∀ s ∈ segs, ∃ u, s = .table u := by
  intro ts
  induction ts with
  | nil =>
    intro segs h
    rw [emitTables] at h
    cases h
    intro s hs
    cases hs
  | cons t rest ih =>
    intro segs h
    rw [emitTables] at h
    split at h
    · exact ih h
    · split at h
      · exact absurd h (by simp)
      · rename_i b hb
        split at h
        · exact absurd h (by simp)
        · rename_i segs2 hrest
          cases h
          intro s hs
          rw [List.mem_append] at hs
          rcases hs with hs | hs
          · split at hs
            · rw [List.mem_singleton] at hs
              exact ⟨t, hs⟩
            · cases hs
          · exact ih hrest s hs

/-! ### Invariants of every table produced by parse_markdown_table -/

theorem parse_mem_cases {text : PyStr} {t : PyTable} {a b : Nat}
    (h : (t, a, b) ∈ (parse_markdown_table text).1) :
    (∃ m, processPipeMatch m = some t) ∨ ∃ g1 g3, processTabMatch g1 g3 = some t := by
  rw [parse_markdown_table] at h
  simp only [List.mem_append, List.mem_filterMap] at h
  rcases h with ⟨m, _, hm⟩ | ⟨m, _, hm⟩
  · rw [Option.map_eq_some'] at hm
    obtain ⟨u, hu, heq⟩ := hm
    left
    exact ⟨_, by rw [hu]; cases heq; rfl⟩
  · rw [Option.map_eq_some'] at hm
    obtain ⟨u, hu, heq⟩ := hm
    right
    exact ⟨_, _, by rw [hu]; cases heq; rfl⟩

theorem parse_table_inv {text : PyStr} {t : PyTable} {a b : Nat}
    (h : (t, a, b) ∈ (parse_markdown_table text).1) :
    t.rows ≠ [] ∧ (∀ r ∈ t.rows, r.length = t.header.length) ∧
      ∃ r ∈ t.rows, ∃ c ∈ r, c ≠ [] := by
  rcases parse_mem_cases h with ⟨m, hm⟩ | ⟨g1, g3, hm⟩
  · obtain ⟨si, _, _, _, _, hrows, hrne⟩ := processPipeMatch_spec hm
    refine ⟨hrne, ?_, ?_⟩
    · intro r hr
      rw [hrows] at hr
      exact (mem_pipeRowsOf hr).1
    · obtain ⟨r, hr⟩ := List.exists_mem_of_ne_nil _ hrne
      have h2 := mem_pipeRowsOf (hrows ▸ hr)
      obtain ⟨c, hc, hcb⟩ := List.any_eq_true.mp h2.2
      have hcne : c ≠ [] := by
        intro hc0
        rw [hc0] at hcb
        simp at hcb
      exact ⟨r, hr, c, hc, hcne⟩
  · obtain ⟨_, hrne, hlen, hcell⟩ := processTabMatch_spec hm
    refine ⟨hrne, hlen, ?_⟩
    obtain ⟨r, hr⟩ := List.exists_mem_of_ne_nil _ hrne
    exact ⟨r, hr, hcell r hr⟩

/-! ### Structural lemmas about segment assembly -/

theorem assembleCore_ok_shape {content : PyStr} {comps : List Segment}
    (h : assembleCore content = .ok comps) :
    ∃ tsegs, emitTables (tablesToDisplay
        ((parse_markdown_table (contentCleanOf content)).1.map fun x => x.1)) = .ok tsegs ∧
      comps = badgeSegsOf content ++
        paraSegsOf (pyStrip (collapseHT (parse_markdown_table (contentCleanOf content)).2)) ++
        tsegs := by
  simp only [assembleCore] at h
  split at h
  · exact absurd h (by simp)
  · rename_i tsegs hemit
    cases h
    exact ⟨tsegs, hemit, rfl⟩

theorem filterMap_some_comp {α β : Type} (f : α → β) (l : List α) :
    l.filterMap (fun a => some (f a)) = l.map f := by
  induction l with
  | nil => rfl
  | cons a r ih =>
    rw [List.filterMap_cons]
    simp [ih]

theorem badgeSegs_filter_badge (content : PyStr) :
    (badgeSegsOf content).filterMap segBadgeName =
      (workerAgentsOf content).map displayName := by
  rw [badgeSegsOf, List.filterMap_map]
  exact filterMap_some_comp displayName (workerAgentsOf content)

theorem paraSegs_filter_badge (summary : PyStr) :
    (paraSegsOf summary).filterMap segBadgeName = [] := by
  rw [List.filterMap_eq_nil_iff]
  intro s hs
  obtain ⟨p, _, rfl⟩ := List.mem_map.mp hs
  rfl

theorem tableSegs_filter_badge {ts : List PyTable} {segs : List Segment}
    (h : emitTables ts = .ok segs) : segs.filterMap segBadgeName = [] := by
  rw [List.filterMap_eq_nil_iff]
  intro s hs
  obtain ⟨u, rfl⟩ := emitTables_all_table h s hs
  rfl

theorem segBadgeName_fallback (c : PyStr) : segBadgeName (fallbackFor c) = none := by
  rw [fallbackFor]
  split
  · rfl
  · split
    · rfl
    · rfl

theorem badgeSegs_filter_para (content : PyStr) :
    (badgeSegsOf content).filterMap segParaText = [] := by
  rw [List.filterMap_eq_nil_iff]
  intro s hs
  rw [badgeSegsOf] at hs
  obtain ⟨p, _, rfl⟩ := List.mem_map.mp hs
  rfl

theorem paraSegs_filter_para (summary : PyStr) :
    (paraSegsOf summary).filterMap segParaText = paraTextsOf summary := by
  rw [paraSegsOf, List.filterMap_map]
  have h : (segParaText ∘ Segment.paragraph) = fun p => some (id p) := rfl
  rw [h, filterMap_some_comp id, List.map_id]

theorem tableSegs_filter_para {ts : List PyTable} {segs : List Segment}
    (h : emitTables ts = .ok segs) : segs.filterMap segParaText = [] := by
  rw [List.filterMap_eq_nil_iff]
  intro s hs
  obtain ⟨u, rfl⟩ := emitTables_all_table h s hs
  rfl

theorem tablesToDisplay_singleton (t : PyTable) : tablesToDisplay [t] = [t] := by
  rw [tablesToDisplay]
  simp

theorem tablesToDisplay_of_getLast {ts : List (PyTable × Nat × Nat)} {t : PyTable}
    {a b : Nat} (hlen : 1 < ts.length) (hlast : ts.getLast? = some (t, a, b)) :
    tablesToDisplay (ts.map fun x => x.1) = [t] := by
  rw [tablesToDisplay, if_pos (by simpa using hlen), List.getLast?_map, hlast]
  rfl

/-- The shared emission argument: when the display list is the single table
t, extracted by the parser and with pairwise-distinct header names, the
formatter output is exactly the non-table segments followed by one Table
segment carrying t. -/
theorem format_single_display {text : PyStr} {t : PyTable}
    (hdisp : tablesToDisplay
      ((parse_markdown_table (contentCleanOf text)).1.map fun x => x.1) = [t])
    (hmem : ∃ a b, (t, a, b) ∈ (parse_markdown_table (contentCleanOf text)).1)
    (hnd : t.header.Nodup) :
    ∃ pre, format_response_content text = .ok (pre ++ [Segment.table t]) ∧
      ∀ s ∈ pre, isTableSeg s = false := by
  obtain ⟨a, b, hm⟩ := hmem
  obtain ⟨hrne, hlen, hex⟩ := parse_table_inv hm
  have hemit : emitTables (tablesToDisplay
      ((parse_markdown_table (contentCleanOf text)).1.map fun x => x.1)) =
      .ok [.table t] := by
    rw [hdisp]
    exact emitTables_singleton hrne (hasDataCheck_true hnd hlen hex)
  refine ⟨badgeSegsOf text ++
    paraSegsOf (pyStrip (collapseHT (parse_markdown_table (contentCleanOf text)).2)),
    ?_, ?_⟩
  · rw [format_response_content]
    simp only [assembleCore]
    rw [hemit]
    simp [List.append_assoc]
  · intro s hs
    rw [List.mem_append] at hs
    rcases hs with hs | hs
    · rw [badgeSegsOf] at hs
      obtain ⟨nm, _, rfl⟩ := List.mem_map.mp hs
      rfl
    · rw [paraSegsOf] at hs
      obtain ⟨p, _, rfl⟩ := List.mem_map.mp hs
      rfl

/-! ### Lemmas about the response extractor -/

theorem filterMap_pickText (l : List RContent) :
    l.filterMap pickText =
      ((l.map textValOf).map pyStrip).filter fun s => !s.isEmpty := by
  induction l with
  | nil => rfl
  | cons c r ih =>
    rw [List.filterMap_cons, List.map_cons, List.map_cons, List.filter_cons]
    by_cases h : (pyStrip (textValOf c)).isEmpty
    · simp [pickText, h, ih]
    · simp [pickText, h, ih]

theorem extractParts_no_null {outs : List ROutput}
    (h : ∀ o ∈ outs, o.content ≠ .null) :
    extractParts outs =
      .ok (((outs.flatMap fun o => (contentListOf o).map textValOf).map pyStrip).filter
        fun s => !s.isEmpty) := by
  induction outs with
  | nil => rfl
  | cons o rest ih =>
    have hco : contentsOf o = .ok (contentListOf o) := by
      rw [contentsOf, contentListOf]
      cases hc : o.content with
      | missing => rfl
      | null => exact absurd hc (h o (List.mem_cons_self o rest))
      | val l => rfl
    rw [extractParts, hco, ih fun x hx => h x (List.mem_cons_of_mem _ hx)]
    dsimp only
    rw [List.flatMap_cons, List.map_append, List.filter_append, filterMap_pickText]

theorem pickText_norm (c : RContent) : pickText (normContent c) = pickText c := by
  obtain ⟨ct⟩ := c
  cases ct <;> rfl

theorem contentsOf_missing {o : ROutput} (hc : o.content = .missing) :
    contentsOf (normOutput o) = .ok [] ∧ contentsOf o = .ok [] := by
  constructor
  · rw [normOutput, hc]
    rfl
  · rw [contentsOf, hc]

theorem extractParts_norm (outs : List ROutput) :
    extractParts (outs.map normOutput) = extractParts outs := by
  induction outs with
  | nil => rfl
  | cons o rest ih =>
    rw [List.map_cons, extractParts, extractParts, ih]
    cases hc : o.content with
    | missing =>
      rw [(contentsOf_missing hc).1, (contentsOf_missing hc).2]
    | null =>
      have h1 : contentsOf (normOutput o) = .exn := by rw [normOutput, hc]; rfl
      have h2 : contentsOf o = .exn := by rw [contentsOf, hc]
      rw [h1, h2]
    | val l =>
      have h1 : contentsOf (normOutput o) = .ok (l.map normContent) := by
        rw [normOutput, hc]
        rfl
      have h2 : contentsOf o = .ok l := by rw [contentsOf, hc]
      rw [h1, h2]
      have h3 : (l.map normContent).filterMap pickText = l.filterMap pickText := by
        rw [List.filterMap_map]
        exact List.filterMap_congr fun c _ => pickText_norm c
      dsimp only
      rw [h3]

/-! ### The claims -/

set_option maxRecDepth 40000
set_option maxHeartbeats 3200000

/-- Claim C3: every data row of every table returned by parse_markdown_table
has exactly len(header) cells, and concretely, with header A|B|C, the short
data row 1|2 is padded to the row 1, 2, empty while the over-long data row
1|2|3|4 drops its purely numeric first cell and becomes the row 2, 3, 4. -/
theorem claim3_row_reconciliation :
    (∀ (text : PyStr) (t : PyTable) (a b : Nat),
      (t, a, b) ∈ (parse_markdown_table text).1 →
      ∀ row ∈ t.rows, row.length = t.header.length) ∧
    (parse_markdown_table (pyStr "|A|B|C|\n|---|---|---|\n|1|2|\n|1|2|3|4|\nx")).1 =
      [(⟨[pyStr "A", pyStr "B", pyStr "C"],
         [[pyStr "1", pyStr "2", pyStr ""], [pyStr "2", pyStr "3", pyStr "4"]]⟩, 0, 38)] := by
  constructor
  · intro text t a b h row hrow
    exact (parse_table_inv h).2.1 row hrow
  · decide

/-- Witness for C3: the padded short row of the concrete table has exactly
as many cells as the three-column header. -/
theorem claim3_witness :
    ([pyStr "1", pyStr "2", pyStr ""] : List PyStr).length =
      (⟨[pyStr "A", pyStr "B", pyStr "C"],
        [[pyStr "1", pyStr "2", pyStr ""], [pyStr "2", pyStr "3", pyStr "4"]]⟩
        : PyTable).header.length :=
  claim3_row_reconciliation.1
    (pyStr "|A|B|C|\n|---|---|---|\n|1|2|\n|1|2|3|4|\nx")
    ⟨[pyStr "A", pyStr "B", pyStr "C"],
      [[pyStr "1", pyStr "2", pyStr ""], [pyStr "2", pyStr "3", pyStr "4"]]⟩
    0 38 (by rw [claim3_row_reconciliation.2]; exact List.mem_singleton.mpr rfl)
    [pyStr "1", pyStr "2", pyStr ""] (by simp)

/-- Claim C10: every table returned by parse_markdown_table has at least one
data row with at least one non-empty cell, so the emission-time suppression
checks (empty table, has_data false) never fire on a parsed table. -/
theorem claim10_parsed_tables_have_data :
    ∀ (text : PyStr) (t : PyTable) (a b : Nat),
      (t, a, b) ∈ (parse_markdown_table text).1 →
      t.rows ≠ [] ∧ (∃ r ∈ t.rows, ∃ c ∈ r, c ≠ []) ∧
        hasDataCheck t ≠ .ok false := by
  intro text t a b h
  obtain ⟨h1, h2, h3⟩ := parse_table_inv h
  exact ⟨h1, h3, hasDataCheck_ne_false h2 h3⟩

/-- Witness for C10 at a concrete one-table text. -/
theorem claim10_witness :
    (⟨[pyStr "A", pyStr "B"], [[pyStr "1", pyStr "2"]]⟩ : PyTable).rows ≠ [] ∧
    (∃ r ∈ (⟨[pyStr "A", pyStr "B"], [[pyStr "1", pyStr "2"]]⟩ : PyTable).rows,
      ∃ c ∈ r, c ≠ []) ∧
    hasDataCheck ⟨[pyStr "A", pyStr "B"], [[pyStr "1", pyStr "2"]]⟩ ≠ .ok false :=
  claim10_parsed_tables_have_data (pyStr "|A|B|\n|---|---|\n|1|2|\nEnd")
    ⟨[pyStr "A", pyStr "B"], [[pyStr "1", pyStr "2"]]⟩ 0 22 (by decide)

/-- Claim C9: the reply extractor always hands back a string (the joined
text, the fixed empty notice, or a caught-exception message, never an
uncaught exception), and every absent field degrades to its empty default:
replacing missing content sequences by the empty sequence and missing text
fields by the empty string does not change the extraction. -/
theorem claim9_extractor_total_and_degrading :
    (∀ r : RReply, get_agent_response_core r = .caughtError ∨
      ∃ parts, extractParts r.output = .ok parts) ∧
    ∀ outs : List ROutput, extractParts (outs.map normOutput) = extractParts outs := by
  constructor
  · intro r
    cases h : extractParts r.output with
    | exn =>
      left
      rw [get_agent_response_core, extractedTextOf, h]
    | ok parts =>
      right
      exact ⟨parts, rfl⟩
  · exact extractParts_norm

/-- Claim C8 counterexample: for the reply whose single text field is
" a " (non-blank but untrimmed), the code joins the trimmed fields and
yields "a", while the claimed newline-join of the raw text fields with
blank fragments dropped would be " a ". -/
theorem claim8_counterexample :
    extractedTextOf ⟨[⟨PyField.val [⟨PyField.val (pyStr " a ")⟩]⟩]⟩ = .ok (pyStr "a") ∧
    specJoinFields ⟨[⟨PyField.val [⟨PyField.val (pyStr " a ")⟩]⟩]⟩ = pyStr " a " ∧
    pyStr "a" ≠ pyStr " a " := by
  refine ⟨by decide, by decide, by decide⟩

/-- Claim C8 (amended): for every reply in which every content element has
a text field (and no content sequence is null), the extractor output is the
newline-join of the trimmed text fields in traversal order, with fragments
that are blank after trimming dropped. -/
theorem claim8_trimmed_join :
    ∀ r : RReply,
      (∀ o ∈ r.output, o.content ≠ PyField.null) →
      (∀ o ∈ r.output, ∀ l, o.content = PyField.val l →
        ∀ c ∈ l, ∃ s, c.text = PyField.val s) →
      extractedTextOf r =
        .ok (joinNl (((fieldsOf r).map pyStrip).filter fun s => !s.isEmpty)) := by
  intro r h1 _
  rw [extractedTextOf, extractParts_no_null h1]
  rfl

/-- Witness for amended C8 at a concrete one-fragment reply. -/
theorem claim8_witness :
    extractedTextOf ⟨[⟨PyField.val [⟨PyField.val (pyStr "hi")⟩]⟩]⟩ =
      .ok (joinNl (((fieldsOf ⟨[⟨PyField.val [⟨PyField.val (pyStr "hi")⟩]⟩]⟩).map
        pyStrip).filter fun s => !s.isEmpty)) :=
  claim8_trimmed_join ⟨[⟨PyField.val [⟨PyField.val (pyStr "hi")⟩]⟩]⟩
    (by decide)
    (by
      intro o ho l hl c hc
      rw [List.mem_singleton] at ho
      subst ho
      cases hl
      rw [List.mem_singleton] at hc
      subst hc
      exact ⟨pyStr "hi", rfl⟩)

/-- Claim C6 counterexample: the name supervisorx is not equal to
supervisor case-insensitively, yet it receives no badge, because the code
filters by substring containment rather than equality. -/
theorem claim6_counterexample :
    format_response_content (pyStr "<name>supervisorx</name>Some text here") =
      .ok [.paragraph (pyStr "Some text here")] ∧
    pyLower (pyStr "supervisorx") ≠ pyStr "supervisor" := by
  refine ⟨by decide, by decide⟩

/-- Claim C6 (amended): the badge segments of the formatter output are
exactly the tag names in first-occurrence order, deduplicated, minus every
name whose lowercase form contains supervisor as a substring, each rendered
with underscores as spaces and title-cased. -/
theorem claim6_supervisor_substring_filter :
    ∀ (content : PyStr) (segs : List Segment),
      format_response_content content = .ok segs →
      segs.filterMap segBadgeName = (workerAgentsOf content).map displayName := by
  intro content segs h
  rw [format_response_content] at h
  cases hac : assembleCore content with
  | exn =>
    rw [hac] at h
    exact absurd h (by simp)
  | ok comps =>
    rw [hac] at h
    dsimp only at h
    obtain ⟨tsegs, hemit, hcomps⟩ := assembleCore_ok_shape hac
    by_cases hemp : comps.isEmpty
    · rw [if_pos hemp] at h
      cases h
      rw [hcomps, List.isEmpty_iff] at hemp
      have hb : badgeSegsOf content = [] := by
        rcases List.append_eq_nil.mp (List.append_eq_nil.mp hemp).1 with ⟨hb, _⟩
        exact hb
      have hwork : (workerAgentsOf content).map displayName = [] := by
        rw [badgeSegsOf] at hb
        rw [List.map_eq_nil_iff.mp hb]
        rfl
      rw [hwork]
      simp [segBadgeName_fallback]
    · rw [if_neg hemp] at h
      cases h
      rw [hcomps, List.filterMap_append, List.filterMap_append,
        badgeSegs_filter_badge, paraSegs_filter_badge, tableSegs_filter_badge hemit]
      simp

/-- Witness for amended C6 at the concrete tag input of the claim: one
Genie badge, one paragraph, and no badge for supervisor. -/
theorem claim6_witness :
    format_response_content (pyStr "<name>genie</name><name>supervisor</name>Some text") =
      .ok [.badge (pyStr "Genie"), .paragraph (pyStr "Some text")] ∧
    ([Segment.badge (pyStr "Genie"),
      Segment.paragraph (pyStr "Some text")].filterMap segBadgeName) =
      (workerAgentsOf
        (pyStr "<name>genie</name><name>supervisor</name>Some text")).map displayName := by
  have h : format_response_content
      (pyStr "<name>genie</name><name>supervisor</name>Some text") =
      .ok [.badge (pyStr "Genie"), .paragraph (pyStr "Some text")] := by decide
  exact ⟨h, claim6_supervisor_substring_filter _ _ h⟩

/-- Claim C7 counterexample: on the summary Hello there, newline, Bye, the
code splits on every newline and drops the three-character line Bye, so the
only paragraph emitted is Hello there; the claimed blank-line split with
only pure-separator paragraphs skipped would emit the single paragraph
containing both lines. -/
theorem claim7_counterexample :
    assembleCore (pyStr "Hello there\nBye") = .ok [.paragraph (pyStr "Hello there")] ∧
    pyStrip (collapseHT
      (parse_markdown_table (contentCleanOf (pyStr "Hello there\nBye"))).2) =
      pyStr "Hello there\nBye" ∧
    specBlankLineParas (pyStr "Hello there\nBye") = [pyStr "Hello there\nBye"] ∧
    [Segment.paragraph (pyStr "Hello there")].filterMap segParaText ≠
      specBlankLineParas (pyStr "Hello there\nBye") := by
  refine ⟨by decide, by decide, by decide, by decide⟩

/-- Claim C7 (amended): segment assembly splits the normalized summary on
every newline and emits one Paragraph per stripped line that is longer than
three characters, is not pure bar/dash/colon/whitespace, and has no pipe
among its first ten characters. -/
theorem claim7_newline_paragraphs :
    ∀ (content : PyStr) (comps : List Segment),
      assembleCore content = .ok comps →
      comps.filterMap segParaText =
        paraTextsOf (pyStrip (collapseHT
          (parse_markdown_table (contentCleanOf content)).2)) := by
  intro content comps h
  obtain ⟨tsegs, hemit, hcomps⟩ := assembleCore_ok_shape h
  rw [hcomps, List.filterMap_append, List.filterMap_append,
    badgeSegs_filter_para, paraSegs_filter_para, tableSegs_filter_para hemit]
  simp

/-- Witness for amended C7 at a concrete two-line summary. -/
theorem claim7_witness :
    assembleCore (pyStr "Alpha beta.\nOk") = .ok [.paragraph (pyStr "Alpha beta.")] ∧
    ([Segment.paragraph (pyStr "Alpha beta.")].filterMap segParaText) =
      paraTextsOf (pyStrip (collapseHT
        (parse_markdown_table (contentCleanOf (pyStr "Alpha beta.\nOk"))).2)) := by
  have h : assembleCore (pyStr "Alpha beta.\nOk") =
      .ok [.paragraph (pyStr "Alpha beta.")] := by decide
  exact ⟨h, claim7_newline_paragraphs _ _ h⟩

/-- Claim C5 counterexample: on the input with stripped content starting
with two asterisks, shorter than fifty characters and at least five long,
the zero-segment fallback emits the two-paragraph header-acknowledgement
block, not a single Paragraph echoing the stripped content. -/
theorem claim5_counterexample :
    assembleCore (pyStr "**|Bold**") = .ok [] ∧
    format_response_content (pyStr "**|Bold**") =
      .ok [Segment.headerOnly (pyStr "**|Bold**")] ∧
    [Segment.headerOnly (pyStr "**|Bold**")] ≠
      [Segment.paragraph (pyStr "**|Bold**")] := by
  refine ⟨by decide, by decide, by decide⟩

/-- Claim C5 (amended): when assembly yields zero segments, exactly one
fallback component is emitted: the fixed empty-response notice when the
cleaned content is shorter than five characters, the two-paragraph
header-acknowledgement block when it starts with two asterisks and is
shorter than fifty characters, and otherwise an inline echo of the cleaned
content. -/
theorem claim5_fallback_trichotomy :
    ∀ content : PyStr, assembleCore content = .ok [] →
      format_response_content content = .ok
        [if (contentCleanOf content).length < 5 then Segment.paragraph emptyRespNotice
         else if (contentCleanOf content).take 2 = pyStr "**" ∧
             (contentCleanOf content).length < 50 then
           Segment.headerOnly (contentCleanOf content)
         else Segment.rawEcho (contentCleanOf content)] := by
  intro content h
  rw [format_response_content, h]
  rfl

/-- Witness for amended C5: the empty input yields exactly one Paragraph
with the fixed empty-response notice. -/
theorem claim5_witness :
    format_response_content (pyStr "") = .ok [Segment.paragraph emptyRespNotice] :=
  (claim5_fallback_trichotomy (pyStr "") (by decide)).trans (by decide)

/-- Claim C1 counterexample: the input holds exactly one well-formed pipe
table (two columns, one data row), but its duplicated header name A makes
the emission-time has_data check select a two-column frame whose ambiguous
truth value raises, so no Table segment is produced at all. -/
theorem claim1_counterexample :
    (parse_markdown_table (contentCleanOf (pyStr "|A|A|\n|-|-|\n|1|2|\nx"))).1 =
      [(⟨[pyStr "A", pyStr "A"], [[pyStr "1", pyStr "2"]]⟩, 0, 18)] ∧
    format_response_content (pyStr "|A|A|\n|-|-|\n|1|2|\nx") = .exn := by
  refine ⟨by decide, by decide⟩

/-- Claim C1 (amended): when the cleaned input yields exactly one extracted
pipe table whose header names are pairwise distinct, the formatter emits
exactly one Table segment carrying it, after only non-table segments; and
for every accepted pipe candidate the header is exactly the edge-stripped
cell list of the source header line (N entries), the surviving rows number
at most the data lines (M), and the rows are exactly the reconciled data
lines that are not all-empty. -/
theorem claim1_single_table_roundtrip :
    (∀ (text : PyStr) (t : PyTable) (a b : Nat),
      (parse_markdown_table (contentCleanOf text)).1 = [(t, a, b)] →
      t.header.Nodup →
      ∃ pre, format_response_content text = .ok (pre ++ [Segment.table t]) ∧
        ∀ s ∈ pre, isTableSeg s = false) ∧
    (∀ (m : PyStr) (t : PyTable) (si : Nat),
      processPipeMatch m = some t →
      (pipeLinesOf m).findIdx? isSepLine = some si →
      t.header = stripEdges (splitCells ((pipeLinesOf m).getD (si - 1) [])) ∧
      t.rows.length ≤ ((pipeLinesOf m).drop (si + 1)).length ∧
      t.rows = (((pipeLinesOf m).drop (si + 1)).map fun l =>
          reconcileRow t.header.length (stripEdges (splitCells l))).filter
        fun r => r.any fun c => !c.isEmpty) := by
  constructor
  · intro text t a b hparse hnd
    apply format_single_display
    · rw [hparse]
      exact tablesToDisplay_singleton t
    · exact ⟨a, b, by rw [hparse]; exact List.mem_singleton.mpr rfl⟩
    · exact hnd
  · intro m t si hproc hfind
    obtain ⟨si2, hfind2, _, hhdr, hhne, hrows, _⟩ := processPipeMatch_spec hproc
    rw [hfind2] at hfind
    cases hfind
    have hn : 0 < t.header.length := List.length_pos.mpr hhne
    refine ⟨hhdr, ?_, ?_⟩
    · rw [hrows, pipeRowsOf_eq_filter _ hn]
      exact le_trans (List.length_filter_le _ _) (by rw [List.length_map])
    · rw [hrows]
      exact pipeRowsOf_eq_filter _ hn _

/-- Witness for amended C1: a text with one two-column table whose blank
data row is dropped; exactly one Table segment is emitted after the intro
paragraph. -/
theorem claim1_witness :
    format_response_content (pyStr "Intro text.\n|A|B|\n|---|---|\n|1|2|\n| | |\nEnd") =
      .ok [Segment.paragraph (pyStr "Intro text."),
        Segment.table ⟨[pyStr "A", pyStr "B"], [[pyStr "1", pyStr "2"]]⟩] ∧
    ∃ pre, format_response_content (pyStr "Intro text.\n|A|B|\n|---|---|\n|1|2|\n| | |\nEnd") =
        .ok (pre ++ [Segment.table ⟨[pyStr "A", pyStr "B"], [[pyStr "1", pyStr "2"]]⟩]) ∧
      ∀ s ∈ pre, isTableSeg s = false :=
  ⟨by decide,
   claim1_single_table_roundtrip.1
     (pyStr "Intro text.\n|A|B|\n|---|---|\n|1|2|\n| | |\nEnd")
     ⟨[pyStr "A", pyStr "B"], [[pyStr "1", pyStr "2"]]⟩ 12 40
     (by decide) (by decide)⟩

/-- Claim C2: the formatter as written can raise to its caller.  A parsed
table with a duplicated header name reaches the has_data loop, where
selecting the duplicated label yields a frame whose elementwise truth value
raises ValueError, uncaught inside format_response_content. -/
theorem claim2_duplicate_header_exception :
    format_response_content (pyStr "|X|X|\n|-|-|\n|7|8|\nz") = .exn := by
  decide

/-- Claim C4 counterexample: the text holds a tab-separated table (span 0
to 17) followed by a well-formed pipe table (span 17 to 39).  The last
table by source order is the pipe table, but the emitted Table segment is
the tab table, because the code takes the last element of the pipe-then-tab
concatenation. -/
theorem claim4_counterexample :
    (parse_markdown_table (contentCleanOf
      (pyStr "a\tb\n--- ---\nx\ty\n\n|C|D|\n|---|---|\n|1|2|\nEnd"))).1 =
      [(⟨[pyStr "C", pyStr "D"], [[pyStr "1", pyStr "2"]]⟩, 17, 39),
       (⟨[pyStr "a", pyStr "b"], [[pyStr "x", pyStr "y"]]⟩, 0, 17)] ∧
    format_response_content (pyStr "a\tb\n--- ---\nx\ty\n\n|C|D|\n|---|---|\n|1|2|\nEnd") =
      .ok [Segment.table ⟨[pyStr "a", pyStr "b"], [[pyStr "x", pyStr "y"]]⟩] ∧
    (⟨[pyStr "a", pyStr "b"], [[pyStr "x", pyStr "y"]]⟩ : PyTable) ≠
      ⟨[pyStr "C", pyStr "D"], [[pyStr "1", pyStr "2"]]⟩ := by
  refine ⟨by decide, by decide, by decide⟩

/-- Claim C4 (amended): with more than one extracted table, exactly one
Table segment is emitted, carrying the last element of the extraction list
(pipe tables in source order, then tab tables) — the last by source order
whenever all tables are pipe tables — and a single extracted table is
always emitted, in both cases provided the displayed table's header names
are pairwise distinct. -/
theorem claim4_last_table_only :
    (∀ (text : PyStr) (ts : List (PyTable × Nat × Nat)) (t : PyTable) (a b : Nat),
      (parse_markdown_table (contentCleanOf text)).1 = ts →
      1 < ts.length →
      ts.getLast? = some (t, a, b) →
      t.header.Nodup →
      ∃ pre, format_response_content text = .ok (pre ++ [Segment.table t]) ∧
        ∀ s ∈ pre, isTableSeg s = false) ∧
    (∀ (text : PyStr) (t : PyTable) (a b : Nat),
      (parse_markdown_table (contentCleanOf text)).1 = [(t, a, b)] →
      t.header.Nodup →
      ∃ pre, format_response_content text = .ok (pre ++ [Segment.table t]) ∧
        ∀ s ∈ pre, isTableSeg s = false) := by
  constructor
  · intro text ts t a b hparse hlen hlast hnd
    apply format_single_display
    · rw [hparse]
      exact tablesToDisplay_of_getLast hlen hlast
    · exact ⟨a, b, by rw [hparse]; exact List.mem_of_getLast?_eq_some hlast⟩
    · exact hnd
  · intro text t a b hparse hnd
    apply format_single_display
    · rw [hparse]
      exact tablesToDisplay_singleton t
    · exact ⟨a, b, by rw [hparse]; exact List.mem_singleton.mpr rfl⟩
    · exact hnd

/-- Witness for amended C4: two pipe tables; only the second (later in
source) is emitted, after the intro paragraph. -/
theorem claim4_witness :
    format_response_content
      (pyStr "Intro.\n|A|B|\n|-|-|\n|1|2|\n\n|C|D|\n|-|-|\n|3|4|\nEnd") =
      .ok [Segment.paragraph (pyStr "Intro."),
        Segment.table ⟨[pyStr "C", pyStr "D"], [[pyStr "3", pyStr "4"]]⟩] ∧
    ∃ pre, format_response_content
        (pyStr "Intro.\n|A|B|\n|-|-|\n|1|2|\n\n|C|D|\n|-|-|\n|3|4|\nEnd") =
        .ok (pre ++ [Segment.table ⟨[pyStr "C", pyStr "D"], [[pyStr "3", pyStr "4"]]⟩]) ∧
      ∀ s ∈ pre, isTableSeg s = false :=
  ⟨by decide,
   claim4_last_table_only.1
     (pyStr "Intro.\n|A|B|\n|-|-|\n|1|2|\n\n|C|D|\n|-|-|\n|3|4|\nEnd")
     [(⟨[pyStr "A", pyStr "B"], [[pyStr "1", pyStr "2"]]⟩, 7, 25),
      (⟨[pyStr "C", pyStr "D"], [[pyStr "3", pyStr "4"]]⟩, 26, 44)]
     ⟨[pyStr "C", pyStr "D"], [[pyStr "3", pyStr "4"]]⟩ 26 44
     (by decide) (by decide) (by decide) (by decide)⟩
